import Mathlib

/-!
Shallow embedding of the reconciliation core of the opencode-vicoa plugin
(`src/plugin/utils.ts`, `src/plugin/control.ts`, `src/plugin/permission.ts`
and the orchestrator in `src/index.ts`), together with proofs of the
specified properties: agent-cycle step computation, permission-reply
matching, control-payload extraction, message-part accumulation and
assembly, echo suppression, and the sent-message tracker.

Conventions: JavaScript `Map`s are modelled as insertion-ordered
association lists with unique keys; `Set<string>` as an insertion-ordered
list of distinct strings; `undefined` as `Option.none`; JS falsiness of a
string (empty string) as `String.isEmpty`.
-/

/-- Lookup in an insertion-ordered association list (JS `Map.get`). -/
def alistGet {α : Type} (m : List (String × α)) (k : String) : Option α :=
  (m.find? (fun p => p.1 == k)).map (·.2)

/-- Update-or-append in an insertion-ordered association list (JS `Map.set`):
an existing key keeps its position, a new key is appended. -/
def alistSet {α : Type} (m : List (String × α)) (k : String) (v : α) : List (String × α) :=
  if m.any (fun p => p.1 == k) then
    m.map (fun p => if p.1 == k then (k, v) else p)
  else
    m ++ [(k, v)]

/-- Key removal from an association list (JS `Map.delete`). -/
def alistErase {α : Type} (m : List (String × α)) (k : String) : List (String × α) :=
  m.filter (fun p => !(p.1 == k))

/-! ## Agent cycling (`cycleTuiToAgent`, src/plugin/control.ts)

The step computation of `cycleTuiToAgent`: find the index of the target
agent in the primary-agent list (`findIndex`, `none` when absent), resolve
the current agent (falling back to the first agent's name when no user
message has been seen, i.e. `currentAgent ?? primaryAgents[0]?.name`), find
its index, and return `(targetIdx - currentIdx + len) % len` forward steps.
JS `%` on nonnegative operands coincides with `Int.emod`. -/
def cycleSteps (agents : List String) (currentAgent : Option String)
    (targetAgent : String) : Option Int :=
  match agents.findIdx? (· == targetAgent) with
  | none => none
  | some targetIdx =>
    let currentName : Option String :=
      match currentAgent with
      | some c => some c
      | none => agents.head?
    match currentName with
    | none => none
    | some name =>
      match agents.findIdx? (· == name) with
      | none => none
      | some currentIdx =>
        some (((targetIdx : Int) - (currentIdx : Int) + (agents.length : Int))
          % (agents.length : Int))

/-! ## JS string primitives

The JS string operations used by the plugin (`toLowerCase`, `trim`,
`replace(/\r\n/g, '\n')`, `startsWith`, `slice`) are embedded directly
over the character list of the string. -/

/-- ASCII lowercasing of one character (the case relevant to the labels and
keywords the plugin compares). -/
def lowerChar (c : Char) : Char :=
  if 65 ≤ c.toNat ∧ c.toNat ≤ 90 then Char.ofNat (c.toNat + 32) else c

/-- JS `String.prototype.toLowerCase`. -/
def jsToLower (s : String) : String := String.mk (s.data.map lowerChar)

/-- JS `String.prototype.trim`: strip leading and trailing whitespace. -/
def jsTrim (s : String) : String :=
  String.mk (((s.data.dropWhile Char.isWhitespace).reverse.dropWhile Char.isWhitespace).reverse)

/-- JS `String.prototype.startsWith`. -/
def jsStartsWith (s pre : String) : Bool := pre.data.isPrefixOf s.data

/-! ## Permission reply parsing (src/plugin/permission.ts) -/

/-- OpenCode permission response values. -/
inductive PermResponse where
  | once
  | always
  | reject
deriving DecidableEq, Repr

/-- Permission option shown to the user: a label and the response it maps to. -/
structure PermissionOption where
  label : String
  response : PermResponse
deriving DecidableEq, Repr

/-- The default option triple (`DEFAULT_PERMISSION_OPTIONS`). -/
def DEFAULT_PERMISSION_OPTIONS : List PermissionOption :=
  [⟨"Allow", .once⟩, ⟨"Allow always", .always⟩, ⟨"Reject", .reject⟩]

/-- JS `Number.parseInt(s, 10)`: skip leading whitespace, optional sign,
then the longest digit prefix; `NaN` (here `none`) when no digit follows. -/
def jsParseInt (s : String) : Option Int :=
  let cs := s.data.dropWhile Char.isWhitespace
  let digitsVal : List Char → Option Nat := fun rest =>
    let ds := rest.takeWhile Char.isDigit
    if ds.isEmpty then none
    else some (ds.foldl (fun acc c => acc * 10 + (c.toNat - 48)) 0)
  match cs with
  | '-' :: r => (digitsVal r).map (fun n => -(n : Int))
  | '+' :: r => (digitsVal r).map (fun n => (n : Int))
  | r => (digitsVal r).map (fun n => (n : Int))

/-- Keyword fallback of `parsePermissionReply` (the three anchored,
case-insensitive regexes, applied to the already-lowercased trimmed reply). -/
def keywordResponse (trimmed : String) : Option PermResponse :=
  if ["allow", "yes", "y", "ok", "approve", "1"].contains trimmed then some .once
  else if ["always", "forever", "permanent", "2"].contains trimmed then some .always
  else if ["reject", "no", "n", "deny", "cancel", "3"].contains trimmed then some .reject
  else none

/-- `parsePermissionReply`: lowercase the trimmed reply, try a
case-insensitive exact label match, then a 1-based ordinal match via
`parseInt`, then the keyword fallback. -/
def parsePermissionReply (userReply : String) (options : List PermissionOption) :
    Option PermResponse :=
  let trimmed := jsToLower (jsTrim userReply)
  match options.find? (fun opt => jsToLower opt.label == trimmed) with
  | some opt => some opt.response
  | none =>
    match jsParseInt trimmed with
    | some num =>
      if h : 1 ≤ num ∧ num ≤ (options.length : Int) then
        some (options.get ⟨(num - 1).toNat, by omega⟩).response
      else keywordResponse trimmed
    | none => keywordResponse trimmed

/-- Rule (1) of the spec's matching policy: case-insensitive exact match of
the trimmed reply against an option's label, first matching option wins. -/
def labelRule (reply : String) (options : List PermissionOption) : Option PermResponse :=
  (options.find? (fun opt => jsToLower opt.label == jsToLower (jsTrim reply))).map (·.response)

/-- Rule (2) of the spec's matching policy: the reply parses as an integer
`k` with `1 ≤ k ≤ |options|` and selects option `k` (1-based). -/
def ordinalRule (reply : String) (options : List PermissionOption) : Option PermResponse :=
  match jsParseInt (jsToLower (jsTrim reply)) with
  | some k =>
    if h : 1 ≤ k ∧ k ≤ (options.length : Int) then
      some (options.get ⟨(k - 1).toNat, by omega⟩).response
    else none
  | none => none

/-- Rule (3) of the spec's matching policy: fixed keyword classes
(affirmative → once, persistence → always, negative → reject). -/
def keywordRule (reply : String) : Option PermResponse :=
  keywordResponse (jsToLower (jsTrim reply))

/-! ## Control payload extraction (`extractControlPayload`, src/plugin/control.ts)

`extractControlPayload` runs `JSON.parse` over the trimmed text and, when
that fails to produce a control payload, over each bracket-delimited
brace-free substring (the matches of the regex on line 83 of control.ts).
JSON values are modelled by `JsonVal`; number literals keep their source
text (their numeric value is never used, only their truthiness). -/
inductive JsonVal where
  | null
  | bool (b : Bool)
  | num (lit : String)
  | str (s : String)
  | arr (elems : List JsonVal)
  | obj (fields : List (String × JsonVal))

/-- JSON whitespace (the four characters `JSON.parse` skips). -/
def jsonWs (c : Char) : Bool := c == ' ' || c == '\t' || c == '\n' || c == '\r'

/-- Hexadecimal digit value, for `\uXXXX` string escapes. -/
def hexVal? (c : Char) : Option Nat :=
  if 48 ≤ c.toNat ∧ c.toNat ≤ 57 then some (c.toNat - 48)
  else if 97 ≤ c.toNat ∧ c.toNat ≤ 102 then some (c.toNat - 87)
  else if 65 ≤ c.toNat ∧ c.toNat ≤ 70 then some (c.toNat - 55)
  else none

/-- Body of a JSON string literal, after the opening quote: returns the
decoded string and the rest of the input past the closing quote. Escape
sequences follow the JSON grammar; unescaped control characters are
rejected, as in `JSON.parse`. -/
def parseStringBody (acc : List Char) : List Char → Option (String × List Char)
  | [] => none
  | '"' :: rest => some (String.mk acc.reverse, rest)
  | '\\' :: rest =>
    match rest with
    | 'n' :: r => parseStringBody ('\n' :: acc) r
    | 't' :: r => parseStringBody ('\t' :: acc) r
    | 'r' :: r => parseStringBody ('\r' :: acc) r
    | 'b' :: r => parseStringBody (Char.ofNat 8 :: acc) r
    | 'f' :: r => parseStringBody (Char.ofNat 12 :: acc) r
    | '"' :: r => parseStringBody ('"' :: acc) r
    | '\\' :: r => parseStringBody ('\\' :: acc) r
    | '/' :: r => parseStringBody ('/' :: acc) r
    | 'u' :: h1 :: h2 :: h3 :: h4 :: r =>
      match hexVal? h1, hexVal? h2, hexVal? h3, hexVal? h4 with
      | some a, some b, some c, some d =>
        parseStringBody (Char.ofNat (((a * 16 + b) * 16 + c) * 16 + d) :: acc) r
      | _, _, _, _ => none
    | _ => none
  | c :: rest => if c.toNat < 32 then none else parseStringBody (c :: acc) rest

/-- JSON number literal: `-? (0 | [1-9][0-9]*) frac? exp?`; the consumed
characters are kept as the literal text. -/
def parseNumLit (cs : List Char) : Option (String × List Char) :=
  let (sgn, cs1) : List Char × List Char :=
    match cs with
    | '-' :: r => (['-'], r)
    | r => ([], r)
  let intDigits := cs1.takeWhile Char.isDigit
  if intDigits.isEmpty then none
  else if intDigits.length > 1 && intDigits.headD '0' == '0' then none
  else
    let cs2 := cs1.drop intDigits.length
    let (fracChars, cs3) : List Char × List Char :=
      match cs2 with
      | '.' :: r =>
        let ds := r.takeWhile Char.isDigit
        if ds.isEmpty then ([], cs2) else ('.' :: ds, r.drop ds.length)
      | _ => ([], cs2)
    if fracChars.isEmpty && !cs2.isEmpty && cs2.headD ' ' == '.' then none
    else
      let (expChars, cs4) : List Char × List Char :=
        match cs3 with
        | e :: r =>
          if e == 'e' || e == 'E' then
            let (sgn2, r2) : List Char × List Char :=
              match r with
              | '+' :: rr => (['+'], rr)
              | '-' :: rr => (['-'], rr)
              | rr => ([], rr)
            let ds := r2.takeWhile Char.isDigit
            if ds.isEmpty then ([], cs3) else (e :: (sgn2 ++ ds), r2.drop ds.length)
          else ([], cs3)
        | [] => ([], cs3)
      if expChars.isEmpty && !cs3.isEmpty && (cs3.headD ' ' == 'e' || cs3.headD ' ' == 'E') then
        none
      else some (String.mk (sgn ++ intDigits ++ fracChars ++ expChars), cs4)

mutual

/-- Fueled recursive-descent JSON value, mirroring `JSON.parse`. -/
def parseValue : Nat → List Char → Option (JsonVal × List Char)
  | 0, _ => none
  | fuel + 1, cs =>
    match cs.dropWhile jsonWs with
    | 'n' :: 'u' :: 'l' :: 'l' :: rest => some (.null, rest)
    | 't' :: 'r' :: 'u' :: 'e' :: rest => some (.bool true, rest)
    | 'f' :: 'a' :: 'l' :: 's' :: 'e' :: rest => some (.bool false, rest)
    | '"' :: rest => (parseStringBody [] rest).map (fun p => (.str p.1, p.2))
    | '[' :: rest =>
      (match rest.dropWhile jsonWs with
       | ']' :: r2 => some (.arr [], r2)
       | r2 => (parseElements fuel r2 []).map (fun p => (.arr p.1, p.2)))
    | '{' :: rest =>
      (match rest.dropWhile jsonWs with
       | '}' :: r2 => some (.obj [], r2)
       | r2 => (parseMembers fuel r2 []).map (fun p => (.obj p.1, p.2)))
    | other => (parseNumLit other).map (fun p => (.num p.1, p.2))

/-- Comma-separated array elements up to the closing bracket. -/
def parseElements : Nat → List Char → List JsonVal → Option (List JsonVal × List Char)
  | 0, _, _ => none
  | fuel + 1, cs, acc =>
    match parseValue fuel cs with
    | none => none
    | some (v, rest) =>
      match rest.dropWhile jsonWs with
      | ',' :: r2 => parseElements fuel r2 (acc ++ [v])
      | ']' :: r2 => some (acc ++ [v], r2)
      | _ => none

/-- Comma-separated `"key": value` members up to the closing brace. -/
def parseMembers : Nat → List Char → List (String × JsonVal) →
    Option (List (String × JsonVal) × List Char)
  | 0, _, _ => none
  | fuel + 1, cs, acc =>
    match cs.dropWhile jsonWs with
    | '"' :: rest =>
      match parseStringBody [] rest with
      | none => none
      | some (key, r1) =>
        match r1.dropWhile jsonWs with
        | ':' :: r2 =>
          (match parseValue fuel r2 with
           | none => none
           | some (v, r3) =>
             match r3.dropWhile jsonWs with
             | ',' :: r4 => parseMembers fuel r4 (acc ++ [(key, v)])
             | '}' :: r4 => some (acc ++ [(key, v)], r4)
             | _ => none)
        | _ => none
    | _ => none

end

/-- JS `JSON.parse`: parse one value and require only whitespace after it;
`none` models a thrown `SyntaxError`. The fuel is an upper bound on the
recursion depth, generous enough for any input of this length. -/
def jsonParse (s : String) : Option JsonVal :=
  match parseValue (3 * s.length + 3) s.data with
  | some (v, rest) => if (rest.dropWhile jsonWs).isEmpty then some v else none
  | none => none

/-- JS property access `v.k` on a parsed JSON value: `none` models
`undefined` (absent key, or a non-object receiver). `JSON.parse` keeps the
last of duplicate keys, hence the reversed search. -/
def jsGetField : JsonVal → String → Option JsonVal
  | .obj fields, k => ((fields.reverse).find? (fun p => p.1 == k)).map (·.2)
  | _, _ => none

/-- Truthiness of a JSON number literal: falsy exactly when its mantissa
has no nonzero digit (`0`, `-0`, `0.00`, `0e5`, ...). -/
def numLitTruthy (lit : String) : Bool :=
  (lit.data.takeWhile (fun c => c != 'e' && c != 'E')).any
    (fun c => c.isDigit && c != '0')

/-- JS truthiness of a parsed JSON value. -/
def jsTruthy : JsonVal → Bool
  | .null => false
  | .bool b => b
  | .num lit => numLitTruthy lit
  | .str s => !s.isEmpty
  | .arr _ => true
  | .obj _ => true

/-- The discriminant test `parsed.type === 'control'`. -/
def isControlMarked (v : JsonVal) : Bool :=
  match jsGetField v "type" with
  | some (.str s) => s == "control"
  | _ => false

/-- The payload selection applied to one parsed candidate:
`parsed.control_command ?? (parsed.type === 'control' ? parsed : null)`,
returned only when truthy (the `if (payload)` guard). A `null` receiver
throws in JS; the throw is caught by the surrounding `try`, which this
`none` models. -/
def controlPayloadOf (v : JsonVal) : Option JsonVal :=
  let payload : JsonVal :=
    match jsGetField v "control_command" with
    | some .null | none => if isControlMarked v then v else .null
    | some w => w
  if jsTruthy payload then some payload else none

/-- The matches of the global regex `/\x7b[^\x7b\x7d]*\x7d/g`: maximal
brace-free bracket-delimited substrings, scanned left to right,
non-overlapping; a `{` not closed before the next brace is skipped and the
scan resumes one character later, as the regex engine does. -/
def scanFlatObjects : Nat → List Char → List String
  | 0, _ => []
  | _, [] => []
  | fuel + 1, '{' :: rest =>
    let body := rest.takeWhile (fun c => c != '{' && c != '}')
    match rest.drop body.length with
    | '}' :: r2 => String.mk ('{' :: (body ++ ['}'])) :: scanFlatObjects fuel r2
    | _ => scanFlatObjects fuel rest
  | fuel + 1, _ :: rest => scanFlatObjects fuel rest

/-- All candidate substrings of the embedded-JSON scan. -/
def matchFlatObjects (s : String) : List String := scanFlatObjects s.length s.data

/-- `extractControlPayload` (src/plugin/control.ts, lines 70–97): parse the
whole trimmed text, else scan for embedded single-level JSON objects and
return the first control payload found, else `null`. -/
def extractControlPayload (content : String) : Option JsonVal :=
  let trimmed := jsTrim content
  match (jsonParse trimmed).bind controlPayloadOf with
  | some payload => some payload
  | none =>
    (matchFlatObjects trimmed).findSome? (fun candidate =>
      (jsonParse candidate).bind controlPayloadOf)

/-- Spec stage (1): parse the whole trimmed text as JSON and select a
control payload from it. -/
def wholeTextPayload (text : String) : Option JsonVal :=
  (jsonParse (jsTrim text)).bind controlPayloadOf

/-- Spec stage (2): scan for bracket-delimited single-level JSON object
substrings, parse each candidate independently, return the first one that
matches the control shape. -/
def embeddedPayload (text : String) : Option JsonVal :=
  (matchFlatObjects (jsTrim text)).findSome? (fun candidate =>
    (jsonParse candidate).bind controlPayloadOf)

/-! ## Message part accumulation (src/index.ts) -/

/-- Per-message accumulation state (`MessagePartsState`): insertion order of
part ids, rendered part contents, and the running text accumulators. -/
structure MessagePartsState where
  order : List String
  parts : List (String × String)
  textByPartId : List (String × String)

/-- The part events `handlePartUpdate` receives (tool parts reach the
`default` branch there; the event handler flushes them separately). -/
inductive PartE where
  | text (id messageID : String) (text : String)
  | file (id messageID : String) (mime : Option String) (url : Option String)
      (filename : Option String)
  | patch (id messageID : String)
  | reasoning (id messageID : String) (text : String)
  | tool (id messageID : String) (tool : String)

/-- The `messageID` field common to all part shapes. -/
def PartE.messageID : PartE → String
  | .text _ mid _ => mid
  | .file _ mid _ _ _ => mid
  | .patch _ mid => mid
  | .reasoning _ mid _ => mid
  | .tool _ mid _ => mid

/-- `truncateText` (src/plugin/format-utils.ts). -/
def truncateText (text : String) (maxLength : Nat := 100) : String :=
  if text.length ≤ maxLength then text
  else String.mk (text.data.take maxLength) ++ "..."

/-- `formatReasoningPart` (src/plugin/format-utils.ts): empty for empty
text, else a bracketed thinking line truncated to 200 characters. Its safe
wrapper degrades to the empty string; the pure embedding cannot throw. -/
def formatReasoningPartSafe (text : String) : String :=
  if text.isEmpty then ""
  else "[Thinking: " ++ truncateText text 200 ++ "]"

/-- The image branch of `formatFilePart` (the only branch reachable from
`handlePartUpdate`, which checks mime/url first): a markdown image link. -/
def formatFilePartImage (url : String) (filename : Option String) : String :=
  "![" ++ filename.getD "image" ++ "](" ++ url ++ ")"

/-- `setPartContent` (src/index.ts, lines 198–209): register the part id in
`order` on first sight; empty content removes the rendered entry, non-empty
content stores it. -/
def setPartContent (st : MessagePartsState) (partId content : String) : MessagePartsState :=
  let st :=
    if st.order.contains partId then st
    else { st with order := st.order ++ [partId] }
  if content.isEmpty then { st with parts := alistErase st.parts partId }
  else { st with parts := alistSet st.parts partId content }

/-- `handlePartUpdate` (src/index.ts, lines 252–290) acting on the global
`messagePartsById` map. A falsy `messageID` returns unchanged; otherwise
the message state is created on first reference (`getMessageState`) and
updated per part kind. -/
def handlePartUpdate (msgs : List (String × MessagePartsState)) (part : PartE)
    (delta : Option String) : List (String × MessagePartsState) :=
  if part.messageID.isEmpty then msgs
  else
    let st := (alistGet msgs part.messageID).getD ⟨[], [], []⟩
    match part with
    | .text id _ text =>
      let currentText := (alistGet st.textByPartId id).getD ""
      let nextText :=
        match delta with
        | some d => currentText ++ d
        | none => if text.isEmpty then currentText else text
      let st := { st with textByPartId := alistSet st.textByPartId id nextText }
      alistSet msgs part.messageID (setPartContent st id nextText)
    | .file id _ mime url filename =>
      (match mime, url with
       | some m, some u =>
         if jsStartsWith m "image/" && !u.isEmpty then
           alistSet msgs part.messageID (setPartContent st id (formatFilePartImage u filename))
         else alistSet msgs part.messageID st
       | _, _ => alistSet msgs part.messageID st)
    | .patch _ _ => alistSet msgs part.messageID st
    | .reasoning id _ text =>
      alistSet msgs part.messageID (setPartContent st id (formatReasoningPartSafe text))
    | .tool _ _ _ => alistSet msgs part.messageID st

/-- The running accumulated text of one text part, as read back from the
message map (empty when absent). -/
def accumulatedText (msgs : List (String × MessagePartsState))
    (messageId partId : String) : String :=
  ((alistGet msgs messageId).bind (fun st => alistGet st.textByPartId partId)).getD ""

/-- `buildMessageContent` (src/index.ts, lines 236–247): the rendered parts
in first-seen order, dropping absent and whitespace-only entries, joined by
blank lines and trimmed. -/
def buildMessageContent (msgs : List (String × MessagePartsState))
    (messageId : String) : String :=
  match alistGet msgs messageId with
  | none => ""
  | some st =>
    let parts := (st.order.filterMap (fun pid => alistGet st.parts pid)).filter
      (fun s => !(jsTrim s).isEmpty)
    jsTrim (String.intercalate "\n\n" parts)

/-! ## Echo suppression (src/index.ts, lines 322–345) -/

/-- `normalizeMessage`: convert CRLF to LF (`replace(/\r\n/g, '\n')`), then
trim. -/
def stripCRLF : List Char → List Char
  | '\r' :: '\n' :: rest => '\n' :: stripCRLF rest
  | c :: rest => c :: stripCRLF rest
  | [] => []

/-- `normalizeMessage` (src/index.ts, lines 322–324). -/
def normalizeMessage (content : String) : String :=
  jsTrim (String.mk (stripCRLF content.data))

/-- The UI-message FIFO capacity `MAX_UI_MESSAGES`. -/
def MAX_UI_MESSAGES : Nat := 50

/-- `addUIMessage` (src/index.ts, lines 327–334): push the normalized text;
past the limit, `splice(0, 40)` removes the oldest 40 entries at once. -/
def addUIMessage (buf : List String) (content : String) : List String :=
  let buf := buf ++ [normalizeMessage content]
  if buf.length > MAX_UI_MESSAGES then buf.drop 40 else buf

/-- `isFromUI` (src/index.ts, lines 337–345): normalize, look up the first
occurrence (`indexOf`), and when found remove exactly that entry
(`splice(index, 1)`, i.e. erase the first occurrence) and report true. -/
def isFromUI (buf : List String) (content : String) : Bool × List String :=
  let c := normalizeMessage content
  if buf.contains c then (true, buf.erase c) else (false, buf)

/-! ## Sent-message tracker (src/index.ts, lines 176–178 and 347–360) -/

/-- The sent-assistant-message registry: `sentAssistantMessageIds` (a JS
`Set`, modelled as its insertion-ordered element list) plus
`sentAssistantMessageQueue`. -/
structure SentTracker where
  set : List String
  queue : List String
deriving DecidableEq, Repr

/-- The registry capacity `MAX_SENT_MESSAGE_IDS`. -/
def MAX_SENT_MESSAGE_IDS : Nat := 200

/-- `trackSentMessage` (src/index.ts, lines 347–360): no-op when already
present; else add to set and queue, and past the limit `shift()` the single
oldest queue entry, deleting it from the set only when truthy (a falsy,
i.e. empty, evicted id is left in the set). -/
def trackSentMessage (t : SentTracker) (messageId : String) : SentTracker :=
  if t.set.contains messageId then t
  else
    let set := t.set ++ [messageId]
    let queue := t.queue ++ [messageId]
    if queue.length > MAX_SENT_MESSAGE_IDS then
      match queue with
      | [] => ⟨set, queue⟩
      | evicted :: rest =>
        ⟨if evicted.isEmpty then set else set.erase evicted, rest⟩
    else ⟨set, queue⟩

/-- The completed-assistant-message step of the `message.updated` handler
(src/index.ts, lines 567–575): assemble the text, drop the accumulation
state, and forward the text (tracking the id) only when it is non-empty and
the id has not been sent before. The third component is the message sent to
the Remote side, if any. -/
def handleAssistantCompleted (msgs : List (String × MessagePartsState))
    (tracker : SentTracker) (messageId : String) :
    List (String × MessagePartsState) × SentTracker × Option String :=
  let trimmedText := buildMessageContent msgs messageId
  let msgs := alistErase msgs messageId
  if trimmedText.length > 0 && !(tracker.set.contains messageId) then
    (msgs, trackSentMessage tracker messageId, some trimmedText)
  else
    (msgs, tracker, none)

/-! ## Concrete inputs used below -/

/-- The message map after streaming the deltas `"Hel"` and `"lo"` into text
part `p` of message `m`. -/
def helloState : List (String × MessagePartsState) :=
  handlePartUpdate (handlePartUpdate [] (.text "p" "m" "") (some "Hel"))
    (.text "p" "m" "") (some "lo")

/-- Two hundred distinct message ids. -/
def ids200 : List String := (List.range 200).map (fun n => toString n)

/-- A tracking sequence that starts with the empty-string id and then adds
two hundred distinct ids, forcing one eviction. -/
def cxIds : List String := "" :: ids200

/-- The tracker state reached by `cxIds` from the empty registry. -/
def cxTracker : SentTracker := cxIds.foldl trackSentMessage ⟨[], []⟩

/-- The registry invariant of the sent-message tracker: the set and the
queue hold exactly the same ids (in fact the same list), the queue has no
duplicates, it respects the capacity, and (needed for preservation) holds
no empty id. -/
def trackerInv (t : SentTracker) : Prop :=
  t.set = t.queue ∧ t.queue.Nodup ∧ t.queue.length ≤ MAX_SENT_MESSAGE_IDS ∧
  ∀ x ∈ t.queue, x ≠ ""

/-! ## Claim theorems are collected at the end of the file, after all
definitions and helper lemmas. -/

/-! ## Helper lemmas -/

/-- `findIndex` of a member element returns its first index. -/
theorem findIdx?_beq_of_mem {a : String} {l : List String} (h : a ∈ l) :
    l.findIdx? (· == a) = some (l.indexOf a) :=
  List.findIdx?_eq_some_of_exists ⟨a, h, by simp⟩

/-- A `Map.set` immediately followed by a `Map.get` of the same key. -/
theorem alistGet_set_self {α : Type} (m : List (String × α)) (k : String) (v : α) :
    alistGet (alistSet m k v) k = some v := by
  induction m with
  | nil => simp [alistGet, alistSet]
  | cons p m ih =>
    by_cases hp : p.1 = k
    · simp [alistGet, alistSet, List.any_cons, hp]
    · have hpk : (p.1 == k) = false := by simp [hp]
      by_cases hany : m.any (fun q => q.1 == k)
      · have ih' := ih
        simp only [alistSet, hany, if_true] at ih'
        simp only [alistSet, List.any_cons, hpk, Bool.false_or, hany, if_true,
          List.map_cons, hpk]
        simpa [alistGet, List.find?_cons, hpk] using ih'
      · have ih' := ih
        simp only [alistSet, hany, if_false] at ih'
        simp only [alistSet, List.any_cons, hpk, Bool.false_or, hany, if_false,
          List.cons_append]
        simpa [alistGet, List.find?_cons, hpk] using ih'

/-- `setPartContent` never touches the text accumulators. -/
theorem setPartContent_textByPartId (st : MessagePartsState) (partId content : String) :
    (setPartContent st partId content).textByPartId = st.textByPartId := by
  simp only [setPartContent]
  split <;> split <;> rfl

/-- Folding `addUIMessage` without reaching the capacity is a plain append
of the normalized texts. -/
theorem foldl_addUIMessage_of_le :
    ∀ (msgs : List String) (buf : List String),
      buf.length + msgs.length ≤ MAX_UI_MESSAGES →
      msgs.foldl addUIMessage buf = buf ++ msgs.map normalizeMessage := by
  intro msgs
  induction msgs with
  | nil => intro buf _; simp
  | cons m ms ih =>
    intro buf h
    simp only [List.length_cons] at h
    have hcond : ¬ ((buf ++ [normalizeMessage m]).length > MAX_UI_MESSAGES) := by
      simp only [List.length_append, List.length_cons, List.length_nil]
      omega
    have hstep : addUIMessage buf m = buf ++ [normalizeMessage m] := by
      simp only [addUIMessage, if_neg hcond]
    rw [List.foldl_cons, hstep, ih]
    · simp
    · simp only [List.length_append, List.length_cons, List.length_nil]
      omega

/-! ## C1 / C10: agent cycling -/

/-- C1: for every ordered agent list containing the target, `cycleTuiToAgent`
computes `(index(target) - index(current) + len) % len` forward steps, an
undefined current agent being resolved to index 0 (the first agent); in
particular `[A,B,C,D]`, current `C`, target `A` gives 2 steps, and
`[A,B,C]`, current undefined, target `C` gives 2 steps. -/
theorem cycleSteps_formula :
    (∀ (agents : List String) (current : Option String) (target : String),
      target ∈ agents →
      (∀ c, current = some c → c ∈ agents) →
      cycleSteps agents current target =
        some ((((agents.indexOf target : Nat) : Int) -
          (match current with
           | some c => ((agents.indexOf c : Nat) : Int)
           | none => 0) + (agents.length : Int)) % (agents.length : Int))) ∧
    cycleSteps ["A", "B", "C", "D"] (some "C") "A" = some 2 ∧
    cycleSteps ["A", "B", "C"] none "C" = some 2 := by
  refine ⟨?_, by decide, by decide⟩
  intro agents current target ht hc
  have hfi : agents.findIdx? (· == target) = some (agents.indexOf target) :=
    findIdx?_beq_of_mem ht
  cases current with
  | some c =>
    have hci : agents.findIdx? (· == c) = some (agents.indexOf c) :=
      findIdx?_beq_of_mem (hc c rfl)
    simp [cycleSteps, hfi, hci]
  | none =>
    cases agents with
    | nil => cases ht
    | cons a as =>
      have hha : (a :: as).findIdx? (· == a) = some 0 := by
        simp [List.findIdx?_cons]
      simp [cycleSteps, hfi, hha]

/-- Helper witness: C1 applied at `[A,B,C,D]`, current `C`, target `A`. -/
theorem cycleSteps_formula_witness :
    ("A" ∈ ["A", "B", "C", "D"] ∧ (∀ c, some "C" = some c → c ∈ ["A", "B", "C", "D"])) ∧
    cycleSteps ["A", "B", "C", "D"] (some "C") "A" =
      some (((["A", "B", "C", "D"].indexOf "A" : Int) -
        ((["A", "B", "C", "D"].indexOf "C" : Nat) : Int) + 4) % 4) := by
  refine ⟨⟨by decide, ?_⟩, ?_⟩
  · intro c hcc
    cases hcc
    decide
  · exact cycleSteps_formula.1 ["A", "B", "C", "D"] (some "C") "A" (by decide)
      (fun c hcc => by cases hcc; decide)

/-- C10: whenever `cycleTuiToAgent` computes a step count it satisfies
`0 ≤ steps < length(agents)` (so at most `length - 1` cycle operations are
issued), and the count is exactly 0 when the resolved current agent already
equals the target. -/
theorem cycleSteps_bounds :
    ∀ (agents : List String) (current : Option String) (target : String) (s : Int),
      cycleSteps agents current target = some s →
      (0 ≤ s ∧ s < (agents.length : Int)) ∧
      ((current = some target ∨ (current = none ∧ agents.head? = some target)) → s = 0) := by
  intro agents current target s h
  cases hfi : agents.findIdx? (· == target) with
  | none => simp [cycleSteps, hfi] at h
  | some j =>
    have hjlen : j < agents.length := (List.findIdx?_eq_some_iff_findIdx_eq.mp hfi).1
    have hlen : (0 : Int) < (agents.length : Int) := by
      have hp : 0 < agents.length := by omega
      exact_mod_cast hp
    cases current with
    | some c =>
      cases hci : agents.findIdx? (· == c) with
      | none => simp [cycleSteps, hfi, hci] at h
      | some i =>
        simp only [cycleSteps, hfi, hci] at h
        cases h
        refine ⟨⟨Int.emod_nonneg _ (by omega), Int.emod_lt_of_pos _ hlen⟩, ?_⟩
        rintro (hct | ⟨hnone, _⟩)
        · cases hct
          rw [hfi] at hci
          cases hci
          have : (j : Int) - (j : Int) + (agents.length : Int) = (agents.length : Int) := by ring
          rw [this, Int.emod_self]
        · cases hnone
    | none =>
      cases hh : agents.head? with
      | none => simp [cycleSteps, hfi, hh] at h
      | some a0 =>
        cases hci : agents.findIdx? (· == a0) with
        | none => simp [cycleSteps, hfi, hh, hci] at h
        | some i =>
          simp only [cycleSteps, hfi, hh, hci] at h
          cases h
          refine ⟨⟨Int.emod_nonneg _ (by omega), Int.emod_lt_of_pos _ hlen⟩, ?_⟩
          rintro (hct | ⟨_, hht⟩)
          · cases hct
          · cases hht
            rw [hfi] at hci
            cases hci
            have : (j : Int) - (j : Int) + (agents.length : Int) = (agents.length : Int) := by
              ring
            rw [this, Int.emod_self]

/-- Helper witness: C10 applied at agents `[A,B]`, current `A`, target `A`. -/
theorem cycleSteps_bounds_witness :
    cycleSteps ["A", "B"] (some "A") "A" = some 0 ∧
    (0 ≤ (0 : Int) ∧ (0 : Int) < ((["A", "B"] : List String).length : Int)) ∧
    ((some "A" = some "A" ∨ (some "A" = none ∧ ["A", "B"].head? = some "A")) → (0 : Int) = 0) :=
  ⟨by decide, cycleSteps_bounds ["A", "B"] (some "A") "A" 0 (by decide)⟩

/-! ## C2: permission reply matching -/

/-- C2: `parsePermissionReply` applies label match, then ordinal match, then
keyword classes, first match winning; for the default options, reply `"2"`
yields `always`, `"ALLOW"` yields `once`, and `"nah"` yields no match. -/
theorem parsePermissionReply_cascade :
    (∀ (reply : String) (options : List PermissionOption),
      parsePermissionReply reply options =
        (labelRule reply options).orElse (fun _ =>
          (ordinalRule reply options).orElse (fun _ => keywordRule reply))) ∧
    parsePermissionReply "2" DEFAULT_PERMISSION_OPTIONS = some .always ∧
    parsePermissionReply "ALLOW" DEFAULT_PERMISSION_OPTIONS = some .once ∧
    parsePermissionReply "nah" DEFAULT_PERMISSION_OPTIONS = none := by
  refine ⟨?_, by decide, by decide, by decide⟩
  intro reply options
  simp only [parsePermissionReply, labelRule, ordinalRule, keywordRule]
  cases hf : options.find? (fun opt => jsToLower opt.label == jsToLower (jsTrim reply)) with
  | some opt => simp [Option.orElse]
  | none =>
    cases hp : jsParseInt (jsToLower (jsTrim reply)) with
    | some k =>
      by_cases hk : 1 ≤ k ∧ k ≤ (options.length : Int)
      · simp [Option.orElse, hk]
      · simp [Option.orElse, hk]
    | none => simp [Option.orElse]

/-! ## C3: control payload extraction -/

/-- C3: `extractControlPayload` first tries the whole trimmed text as JSON,
then scans bracket-delimited single-level JSON object substrings and
returns the first control-shaped candidate, else `null`; in particular the
text `Agent changed to Reviewer. {"type":"control","setting":"agent_type",
"value":"reviewer"}` extracts the payload with setting `agent_type` and
value `reviewer`. -/
theorem extractControlPayload_spec :
    (∀ text : String,
      extractControlPayload text =
        (wholeTextPayload text).orElse (fun _ => embeddedPayload text)) ∧
    (∃ p : JsonVal,
      extractControlPayload
        "Agent changed to Reviewer. \x7b\"type\":\"control\",\"setting\":\"agent_type\",\"value\":\"reviewer\"\x7d"
        = some p ∧
      jsGetField p "setting" = some (.str "agent_type") ∧
      jsGetField p "value" = some (.str "reviewer")) := by
  constructor
  · intro text
    simp only [extractControlPayload, wholeTextPayload, embeddedPayload]
    cases (jsonParse (jsTrim text)).bind controlPayloadOf with
    | some payload => rfl
    | none => rfl
  · refine ⟨.obj [("type", .str "control"), ("setting", .str "agent_type"),
      ("value", .str "reviewer")], ?_, rfl, rfl⟩
    rfl

/-! ## C4: text part accumulation -/

/-- The running text read back through the default state equals
`accumulatedText`. -/
theorem currentText_eq (msgs : List (String × MessagePartsState)) (mid pid : String) :
    (alistGet ((alistGet msgs mid).getD ⟨[], [], []⟩).textByPartId pid).getD "" =
      accumulatedText msgs mid pid := by
  cases h : alistGet msgs mid with
  | none =>
    simp only [accumulatedText, h]
    simp [alistGet]
  | some st => simp [accumulatedText, h]

/-- Effect of one text-part event on the accumulated text of that part:
a delta appends; a full-text event replaces only when the event text is
non-empty (the `part.text || currentText` fallback). -/
theorem accumulatedText_handlePartUpdate (msgs : List (String × MessagePartsState))
    (pid mid t : String) (delta : Option String) (hmid : mid ≠ "") :
    accumulatedText (handlePartUpdate msgs (.text pid mid t) delta) mid pid =
      match delta with
      | some d => accumulatedText msgs mid pid ++ d
      | none => if t.isEmpty then accumulatedText msgs mid pid else t := by
  have hne : mid.isEmpty = false := by
    rw [Bool.eq_false_iff]
    simp [String.isEmpty_iff, hmid]
  simp only [handlePartUpdate, PartE.messageID, hne, Bool.false_eq_true, if_false]
  rw [show accumulatedText
      (alistSet msgs mid
        (setPartContent
          { (alistGet msgs mid).getD ⟨[], [], []⟩ with
            textByPartId :=
              alistSet ((alistGet msgs mid).getD ⟨[], [], []⟩).textByPartId pid
                (match delta with
                 | some d => (alistGet ((alistGet msgs mid).getD ⟨[], [], []⟩).textByPartId
                     pid).getD "" ++ d
                 | none => if t.isEmpty then
                     (alistGet ((alistGet msgs mid).getD ⟨[], [], []⟩).textByPartId pid).getD ""
                   else t) }
          pid
          (match delta with
           | some d => (alistGet ((alistGet msgs mid).getD ⟨[], [], []⟩).textByPartId
               pid).getD "" ++ d
           | none => if t.isEmpty then
               (alistGet ((alistGet msgs mid).getD ⟨[], [], []⟩).textByPartId pid).getD ""
             else t))) mid pid =
      (match delta with
       | some d => (alistGet ((alistGet msgs mid).getD ⟨[], [], []⟩).textByPartId
           pid).getD "" ++ d
       | none => if t.isEmpty then
           (alistGet ((alistGet msgs mid).getD ⟨[], [], []⟩).textByPartId pid).getD ""
         else t) from ?_]
  · cases delta with
    | some d => simp [currentText_eq]
    | none => by_cases ht : t.isEmpty <;> simp [ht, currentText_eq]
  · simp [accumulatedText, setPartContent_textByPartId, alistGet_set_self]

/-- C4 counterexample: after accumulating `"Hello"`, a no-delta event whose
full text is empty leaves the accumulated text at `"Hello"` instead of
replacing it with the event's (empty) full text, so the unconditional
replacement rule of the claim fails at this input. -/
theorem handlePartUpdate_empty_replacement_cx :
    accumulatedText helloState "m" "p" = "Hello" ∧
    accumulatedText (handlePartUpdate helloState (.text "p" "m" "") none) "m" "p" = "Hello" ∧
    accumulatedText (handlePartUpdate helloState (.text "p" "m" "") none) "m" "p" ≠ "" := by
  refine ⟨rfl, rfl, ?_⟩
  decide

/-- C4 (amended): a part event carrying a delta string appends the delta to
the part's previously accumulated text; a part event without a delta
replaces the accumulated text with the event's full text when that text is
non-empty, and leaves the accumulated text unchanged when the event's full
text is empty. Deltas `"Hel"` then `"lo"` accumulate to `"Hello"`, and a
subsequent (non-empty) full-text replacement event overwrites rather than
appends. -/
theorem handlePartUpdate_text_accumulation :
    (∀ (msgs : List (String × MessagePartsState)) (pid mid t d : String), mid ≠ "" →
      accumulatedText (handlePartUpdate msgs (.text pid mid t) (some d)) mid pid =
        accumulatedText msgs mid pid ++ d) ∧
    (∀ (msgs : List (String × MessagePartsState)) (pid mid t : String), mid ≠ "" → t ≠ "" →
      accumulatedText (handlePartUpdate msgs (.text pid mid t) none) mid pid = t) ∧
    (∀ (msgs : List (String × MessagePartsState)) (pid mid : String), mid ≠ "" →
      accumulatedText (handlePartUpdate msgs (.text pid mid "") none) mid pid =
        accumulatedText msgs mid pid) ∧
    accumulatedText helloState "m" "p" = "Hello" ∧
    accumulatedText (handlePartUpdate helloState (.text "p" "m" "Goodbye") none) "m" "p" =
      "Goodbye" := by
  refine ⟨?_, ?_, ?_, rfl, rfl⟩
  · intro msgs pid mid t d hmid
    rw [accumulatedText_handlePartUpdate msgs pid mid t (some d) hmid]
  · intro msgs pid mid t hmid ht
    rw [accumulatedText_handlePartUpdate msgs pid mid t none hmid]
    have hne : t.isEmpty = false := by
      rw [Bool.eq_false_iff]
      simp [String.isEmpty_iff, ht]
    simp [hne]
  · intro msgs pid mid hmid
    rw [accumulatedText_handlePartUpdate msgs pid mid "" none hmid]
    rfl

/-- Helper witness: C4's amended delta rule applied at a concrete input. -/
theorem handlePartUpdate_text_accumulation_witness :
    ("m" : String) ≠ "" ∧
    accumulatedText (handlePartUpdate [] (.text "p" "m" "") (some "Hi")) "m" "p" =
      accumulatedText [] "m" "p" ++ "Hi" :=
  ⟨by decide, handlePartUpdate_text_accumulation.1 [] "p" "m" "" "Hi" (by decide)⟩

/-! ## C5 / C6: echo suppressor -/

/-- C5: recording a text into a buffer already holding `MAX` (50) entries
evicts the oldest 40 in one operation; hence inserting 51 texts into an
initially empty buffer leaves exactly the 11 most recent entries. -/
theorem addUIMessage_batch_eviction :
    (∀ (buf : List String) (t : String), buf.length = MAX_UI_MESSAGES →
      addUIMessage buf t = buf.drop 40 ++ [normalizeMessage t] ∧
      (addUIMessage buf t).length = 11) ∧
    (∀ msgs : List String, msgs.length = 51 →
      msgs.foldl addUIMessage [] = (msgs.map normalizeMessage).drop 40 ∧
      (msgs.foldl addUIMessage []).length = 11) := by
  have hstep : ∀ (buf : List String) (t : String), buf.length = MAX_UI_MESSAGES →
      addUIMessage buf t = buf.drop 40 ++ [normalizeMessage t] := by
    intro buf t h
    have hcond : (buf ++ [normalizeMessage t]).length > MAX_UI_MESSAGES := by
      simp only [List.length_append, List.length_cons, List.length_nil]
      omega
    simp only [addUIMessage, if_pos hcond]
    rw [List.drop_append_of_le_length]
    rw [h]
    decide
  constructor
  · intro buf t h
    refine ⟨hstep buf t h, ?_⟩
    rw [hstep buf t h]
    simp only [List.length_append, List.length_drop, List.length_cons, List.length_nil, h]
    decide
  · intro msgs hlen
    rcases List.eq_nil_or_concat msgs with hnil | ⟨l, x, hx⟩
    · rw [hnil] at hlen; cases hlen
    · rw [hx] at hlen ⊢
      simp only [List.concat_eq_append, List.length_append, List.length_cons,
        List.length_nil] at hlen
      have hl : l.length = 50 := by omega
      have hfold : (l ++ [x]).foldl addUIMessage [] = addUIMessage (l.foldl addUIMessage []) x := by
        rw [List.foldl_append]
        rfl
      have hflat : l.foldl addUIMessage [] = l.map normalizeMessage := by
        have := foldl_addUIMessage_of_le l []
        simp only [List.length_nil, Nat.zero_add] at this
        exact (this (by rw [hl]; rfl)).trans (by simp)
      have hmaplen : (l.map normalizeMessage).length = MAX_UI_MESSAGES := by
        simp [hl, MAX_UI_MESSAGES]
      constructor
      · rw [List.concat_eq_append, hfold, hflat, hstep _ _ hmaplen]
        rw [List.map_append, List.map_singleton]
        rw [List.drop_append_of_le_length (by simp [hl])]
      · rw [List.concat_eq_append, hfold, hflat, hstep _ _ hmaplen]
        simp only [List.length_append, List.length_drop, List.length_map,
          List.length_cons, List.length_nil, hl]

/-- Helper witness: C5 applied to a concrete 50-entry buffer and a concrete
51-element insertion sequence. -/
theorem addUIMessage_batch_eviction_witness :
    ((List.range 50).map (fun n => toString n)).length = MAX_UI_MESSAGES ∧
    ((List.range 51).map (fun n => toString n)).length = 51 ∧
    (((List.range 51).map (fun n => toString n)).foldl addUIMessage []).length = 11 := by
  refine ⟨by simp [MAX_UI_MESSAGES], by simp, ?_⟩
  exact (addUIMessage_batch_eviction.2 ((List.range 51).map (fun n => toString n))
    (by simp)).2

/-- C6: echo suppression is one-shot over normalized text: after recording
`t` into a buffer not already holding its normalization, the first
`isFromUI` with any `t'` normalizing equal to `t` returns true and removes
exactly one entry, and a second `isFromUI` of the same text returns false. -/
theorem echo_one_shot :
    ∀ (buf : List String) (t t' : String),
      normalizeMessage t' = normalizeMessage t →
      normalizeMessage t ∉ buf →
      (isFromUI (addUIMessage buf t) t').1 = true ∧
      (isFromUI (addUIMessage buf t) t').2.length + 1 = (addUIMessage buf t).length ∧
      (isFromUI (isFromUI (addUIMessage buf t) t').2 t').1 = false := by
  intro buf t t' hnorm hnotin
  have hform : ∃ pre : List String,
      addUIMessage buf t = pre ++ [normalizeMessage t] ∧ pre.Sublist buf := by
    by_cases hc : (buf ++ [normalizeMessage t]).length > MAX_UI_MESSAGES
    · refine ⟨buf.drop 40, ?_, List.drop_sublist _ _⟩
      simp only [addUIMessage, if_pos hc]
      rw [List.drop_append_of_le_length]
      simp only [List.length_append, List.length_cons, List.length_nil,
        MAX_UI_MESSAGES] at hc
      omega
    · exact ⟨buf, by simp only [addUIMessage, if_neg hc], List.Sublist.refl _⟩
  obtain ⟨pre, hb1, hsub⟩ := hform
  have hcount : List.count (normalizeMessage t) (addUIMessage buf t) = 1 := by
    rw [hb1, List.count_append]
    have hle := hsub.count_le (normalizeMessage t)
    have hbuf0 : List.count (normalizeMessage t) buf = 0 := List.count_eq_zero.mpr hnotin
    have h0 : List.count (normalizeMessage t) pre = 0 := by omega
    rw [h0, List.count_singleton]
    simp
  have hmem : normalizeMessage t ∈ addUIMessage buf t := List.count_pos_iff.mp (by omega)
  have hcont : (addUIMessage buf t).contains (normalizeMessage t) = true := by
    simpa using hmem
  have hfirst : isFromUI (addUIMessage buf t) t' =
      (true, (addUIMessage buf t).erase (normalizeMessage t)) := by
    simp only [isFromUI, hnorm, hcont, if_true]
  have hcount2 :
      List.count (normalizeMessage t) ((addUIMessage buf t).erase (normalizeMessage t)) = 0 := by
    rw [List.count_erase_self, hcount]
  have hnotmem2 : normalizeMessage t ∉ (addUIMessage buf t).erase (normalizeMessage t) :=
    List.count_eq_zero.mp hcount2
  have hcont2 :
      ((addUIMessage buf t).erase (normalizeMessage t)).contains (normalizeMessage t)
        = false := by
    simpa using hnotmem2
  refine ⟨by rw [hfirst], ?_, ?_⟩
  · rw [hfirst]
    have := List.length_erase_of_mem hmem
    have hpos : 0 < (addUIMessage buf t).length := List.length_pos.mpr (by
      intro hnil
      rw [hnil] at hmem
      cases hmem)
    simp only [this]
    omega
  · rw [hfirst]
    simp only [isFromUI, hnorm, hcont2, if_false]
    simp

/-- Helper witness: C6 applied at the empty buffer with text `"hi"`. -/
theorem echo_one_shot_witness :
    (normalizeMessage "hi" = normalizeMessage "hi" ∧ normalizeMessage "hi" ∉ ([] : List String)) ∧
    (isFromUI (addUIMessage [] "hi") "hi").1 = true ∧
    (isFromUI (addUIMessage [] "hi") "hi").2.length + 1 = (addUIMessage [] "hi").length ∧
    (isFromUI (isFromUI (addUIMessage [] "hi") "hi").2 "hi").1 = false :=
  ⟨⟨rfl, by decide⟩, echo_one_shot [] "hi" "hi" rfl (by decide)⟩

/-! ## C7: sent-message tracker eviction -/

set_option maxRecDepth 40000 in
/-- C7 counterexample: with the id queue already at its maximum size (200),
tracking a fresh id evicts exactly the single oldest entry — the queue
keeps its maximum length and equals the old queue minus its head plus the
new id — so insertion at capacity does not evict a batch of oldest
entries. -/
theorem trackSentMessage_single_eviction_cx :
    (trackSentMessage ⟨ids200, ids200⟩ "x").queue = ids200.drop 1 ++ ["x"] ∧
    (trackSentMessage ⟨ids200, ids200⟩ "x").queue.length = MAX_SENT_MESSAGE_IDS ∧
    ¬ ((trackSentMessage ⟨ids200, ids200⟩ "x").queue.length < MAX_SENT_MESSAGE_IDS) := by
  have h1 : (trackSentMessage ⟨ids200, ids200⟩ "x").queue = ids200.drop 1 ++ ["x"] := by rfl
  have h2 : (trackSentMessage ⟨ids200, ids200⟩ "x").queue.length = MAX_SENT_MESSAGE_IDS := by
    rfl
  exact ⟨h1, h2, by omega⟩

/-- C7 (amended): inserting a new id when the registry is already at its
maximum size evicts exactly the single oldest entry, one at a time — the
queue drops its head, appends the new id, and stays at the maximum
length. -/
theorem trackSentMessage_single_eviction :
    ∀ (t : SentTracker) (messageId : String),
      t.set.contains messageId = false →
      t.queue.length = MAX_SENT_MESSAGE_IDS →
      (trackSentMessage t messageId).queue = t.queue.drop 1 ++ [messageId] ∧
      (trackSentMessage t messageId).queue.length = MAX_SENT_MESSAGE_IDS := by
  intro t messageId hc hlen
  cases hq : t.queue with
  | nil =>
    rw [hq] at hlen
    simp [MAX_SENT_MESSAGE_IDS] at hlen
  | cons q rest =>
    have hrest : rest.length + 1 = MAX_SENT_MESSAGE_IDS := by
      rw [hq] at hlen
      simpa using hlen
    simp only [trackSentMessage, hc, Bool.false_eq_true, if_false, hq, List.cons_append,
      List.length_cons, List.length_append, List.length_nil]
    rw [if_pos (show MAX_SENT_MESSAGE_IDS < rest.length + 1 + 1 by omega)]
    constructor
    · simp
    · simp only [List.length_append, List.length_cons, List.length_nil]
      omega

set_option maxRecDepth 40000 in
/-- Helper witness: C7's amended single-eviction rule applied at a concrete
full registry. -/
theorem trackSentMessage_single_eviction_witness :
    ((⟨ids200, ids200⟩ : SentTracker).set.contains "x" = false ∧
      (⟨ids200, ids200⟩ : SentTracker).queue.length = MAX_SENT_MESSAGE_IDS) ∧
    (trackSentMessage ⟨ids200, ids200⟩ "x").queue = ids200.drop 1 ++ ["x"] ∧
    (trackSentMessage ⟨ids200, ids200⟩ "x").queue.length = MAX_SENT_MESSAGE_IDS :=
  ⟨⟨by decide, by decide⟩, trackSentMessage_single_eviction ⟨ids200, ids200⟩ "x"
    (by decide) (by decide)⟩

/-! ## C8: no forwarding of empty assemblies -/

/-- C8: a message whose state holds no non-empty rendered parts assembles to
the empty string and is never forwarded by the completed-message handler;
conversely, anything the handler does forward is the assembled text and is
non-empty. -/
theorem no_empty_forward :
    (∀ (msgs : List (String × MessagePartsState)) (tracker : SentTracker)
        (messageId : String),
      (∀ st, alistGet msgs messageId = some st →
        ∀ pid c, pid ∈ st.order → alistGet st.parts pid = some c →
          (jsTrim c).isEmpty = true) →
      buildMessageContent msgs messageId = "" ∧
      (handleAssistantCompleted msgs tracker messageId).2.2 = none) ∧
    (∀ (msgs : List (String × MessagePartsState)) (tracker : SentTracker)
        (messageId txt : String),
      (handleAssistantCompleted msgs tracker messageId).2.2 = some txt →
      txt = buildMessageContent msgs messageId ∧ txt ≠ "") := by
  constructor
  · intro msgs tracker messageId h
    have hb : buildMessageContent msgs messageId = "" := by
      cases hm : alistGet msgs messageId with
      | none => simp [buildMessageContent, hm]
      | some st =>
        have hfilter : (st.order.filterMap (fun pid => alistGet st.parts pid)).filter
            (fun s => !(jsTrim s).isEmpty) = [] := by
          rw [List.filter_eq_nil_iff]
          intro a ha
          obtain ⟨pid, hpid, hget⟩ := List.mem_filterMap.mp ha
          simp [h st hm pid a hpid hget]
        simp only [buildMessageContent, hm, hfilter]
        rfl
    refine ⟨hb, ?_⟩
    simp [handleAssistantCompleted, hb]
  · intro msgs tracker messageId txt h
    simp only [handleAssistantCompleted] at h
    by_cases hcond : (buildMessageContent msgs messageId).length > 0 ∧
        ¬ (tracker.set.contains messageId = true)
    · rw [if_pos (by simpa using hcond)] at h
      obtain rfl : buildMessageContent msgs messageId = txt := by simpa using h
      refine ⟨rfl, ?_⟩
      intro hempty
      rw [hempty] at hcond
      simp at hcond
    · rw [if_neg (by simpa using hcond)] at h
      cases h

/-- Helper witness: C8 applied at a state with a single whitespace-only
rendered part. -/
theorem no_empty_forward_witness :
    buildMessageContent [("m", ⟨["p"], [("p", "  ")], []⟩)] "m" = "" ∧
    (handleAssistantCompleted [("m", ⟨["p"], [("p", "  ")], []⟩)] ⟨[], []⟩ "m").2.2 = none := by
  refine (no_empty_forward.1 [("m", ⟨["p"], [("p", "  ")], []⟩)] ⟨[], []⟩ "m" ?_)
  intro st hst pid c hpid hc
  have hst' : st = (⟨["p"], [("p", "  ")], []⟩ : MessagePartsState) := by
    simpa [alistGet] using hst.symm
  rw [hst'] at hpid hc
  simp only [List.mem_singleton] at hpid
  rw [hpid] at hc
  have hc' : c = "  " := by
    simpa [alistGet] using hc.symm
  rw [hc']
  rfl

/-! ## C9: tracker registry invariant -/

/-- One tracking step with a non-empty id preserves the registry
invariant. -/
theorem trackerInv_step (t : SentTracker) (messageId : String) (hid : messageId ≠ "")
    (h : trackerInv t) : trackerInv (trackSentMessage t messageId) := by
  obtain ⟨hsq, hnd, hlen, hne⟩ := h
  cases hc : t.set.contains messageId with
  | true =>
    unfold trackSentMessage
    rw [if_pos hc]
    exact ⟨hsq, hnd, hlen, hne⟩
  | false =>
    have hidq : messageId ∉ t.queue := by
      intro hmem
      rw [← hsq] at hmem
      have hcc : t.set.contains messageId = true := by simpa using hmem
      rw [hc] at hcc
      cases hcc
    by_cases hover : (t.queue ++ [messageId]).length > MAX_SENT_MESSAGE_IDS
    · have hqlen : t.queue.length = MAX_SENT_MESSAGE_IDS := by
        simp only [List.length_append, List.length_cons, List.length_nil] at hover
        omega
      cases hq : t.queue with
      | nil =>
        rw [hq] at hqlen
        simp [MAX_SENT_MESSAGE_IDS] at hqlen
      | cons q rest =>
        have hrest : rest.length + 1 = MAX_SENT_MESSAGE_IDS := by
          rw [hq] at hqlen
          simpa using hqlen
        have hqne : q ≠ "" := hne q (by rw [hq]; exact List.mem_cons_self q rest)
        have hqe : q.isEmpty = false := by
          rw [Bool.eq_false_iff]
          simp [String.isEmpty_iff, hqne]
        have hndr : rest.Nodup ∧ q ∉ rest := by
          rw [hq] at hnd
          exact ⟨(List.nodup_cons.mp hnd).2, (List.nodup_cons.mp hnd).1⟩
        have hidr : messageId ∉ rest := by
          rw [hq] at hidq
          exact fun hm => hidq (List.mem_cons_of_mem q hm)
        have hset : t.set = q :: rest := by rw [hsq, hq]
        unfold trackSentMessage
        rw [if_neg (show ¬ (t.set.contains messageId = true) by rw [hc]; exact Bool.false_ne_true)]
        simp only [hq, hset, List.cons_append]
        rw [if_pos (show (q :: (rest ++ [messageId])).length > MAX_SENT_MESSAGE_IDS by
          simp only [List.length_cons, List.length_append, List.length_nil]
          omega)]
        simp only [hqe, Bool.false_eq_true, if_false]
        rw [List.erase_cons_head]
        refine ⟨rfl, ?_, ?_, ?_⟩
        · rw [List.nodup_append]
          refine ⟨hndr.1, List.nodup_singleton _, ?_⟩
          intro a ha hb
          rw [List.mem_singleton] at hb
          rw [hb] at ha
          exact hidr ha
        · simp only [List.length_append, List.length_cons, List.length_nil]
          omega
        · intro x hx
          rcases List.mem_append.mp hx with hx | hx
          · exact hne x (by rw [hq]; exact List.mem_cons_of_mem q hx)
          · rw [List.mem_singleton] at hx
            rw [hx]
            exact hid
    · unfold trackSentMessage
      rw [if_neg (show ¬ (t.set.contains messageId = true) by rw [hc]; exact Bool.false_ne_true)]
      rw [if_neg hover]
      refine ⟨by rw [hsq], ?_, ?_, ?_⟩
      · rw [List.nodup_append]
        refine ⟨hnd, List.nodup_singleton _, ?_⟩
        intro a ha hb
        rw [List.mem_singleton] at hb
        rw [hb] at ha
        exact hidq ha
      · simp only [List.length_append, List.length_cons, List.length_nil] at hover ⊢
        omega
      · intro x hx
        rcases List.mem_append.mp hx with hx | hx
        · exact hne x hx
        · rw [List.mem_singleton] at hx
          rw [hx]
          exact hid

/-- The registry invariant holds after folding any sequence of non-empty
ids. -/
theorem trackerInv_foldl :
    ∀ (ids : List String) (t : SentTracker), (∀ x ∈ ids, x ≠ "") → trackerInv t →
      trackerInv (ids.foldl trackSentMessage t) := by
  intro ids
  induction ids with
  | nil => intro t _ h; exact h
  | cons i is ih =>
    intro t hne h
    rw [List.foldl_cons]
    exact ih (trackSentMessage t i) (fun x hx => hne x (List.mem_cons_of_mem i hx))
      (trackerInv_step t i (hne i (List.mem_cons_self i is)) h)

set_option maxRecDepth 200000 in
/-- C9 counterexample: starting from the empty registry and tracking the
empty-string id followed by 200 distinct ids, the eviction of the falsy
empty id skips the `set.delete` call, leaving the set with 201 entries
while the queue holds 200 — so the set and queue do not contain the same
ids and the set exceeds the 200-entry bound. -/
theorem tracker_registry_cx :
    ¬ ((∀ x, x ∈ cxTracker.set ↔ x ∈ cxTracker.queue) ∧ cxTracker.queue.Nodup ∧
      cxTracker.set.length ≤ MAX_SENT_MESSAGE_IDS ∧
      cxTracker.queue.length ≤ MAX_SENT_MESSAGE_IDS) := by
  intro h
  have hlen : cxTracker.set.length = 201 := by rfl
  have hle := h.2.2.1
  rw [hlen] at hle
  simp [MAX_SENT_MESSAGE_IDS] at hle

/-- C9 (amended): after any sequence of track operations with non-empty ids
starting from the empty registry, the membership set and the eviction queue
are exactly the same list (hence hold the same ids), the queue has no
duplicates, and both hold at most 200 entries. -/
theorem tracker_registry_inv :
    ∀ ids : List String, (∀ x ∈ ids, x ≠ "") →
      (ids.foldl trackSentMessage ⟨[], []⟩).set =
        (ids.foldl trackSentMessage ⟨[], []⟩).queue ∧
      (ids.foldl trackSentMessage ⟨[], []⟩).queue.Nodup ∧
      (ids.foldl trackSentMessage ⟨[], []⟩).queue.length ≤ MAX_SENT_MESSAGE_IDS ∧
      (ids.foldl trackSentMessage ⟨[], []⟩).set.length ≤ MAX_SENT_MESSAGE_IDS := by
  intro ids hne
  have hinv : trackerInv (ids.foldl trackSentMessage ⟨[], []⟩) :=
    trackerInv_foldl ids ⟨[], []⟩ hne
      ⟨rfl, List.nodup_nil, by simp [MAX_SENT_MESSAGE_IDS], by simp⟩
  obtain ⟨hsq, hnd, hlen, _⟩ := hinv
  exact ⟨hsq, hnd, hlen, by rw [hsq]; exact hlen⟩

/-- Helper witness: C9's amended invariant applied to a concrete two-id
sequence. -/
theorem tracker_registry_inv_witness :
    (∀ x ∈ ["a", "b"], x ≠ "") ∧
    ((["a", "b"] : List String).foldl trackSentMessage ⟨[], []⟩).set =
      ((["a", "b"] : List String).foldl trackSentMessage ⟨[], []⟩).queue ∧
    ((["a", "b"] : List String).foldl trackSentMessage ⟨[], []⟩).queue.Nodup ∧
    ((["a", "b"] : List String).foldl trackSentMessage ⟨[], []⟩).queue.length ≤
      MAX_SENT_MESSAGE_IDS ∧
    ((["a", "b"] : List String).foldl trackSentMessage ⟨[], []⟩).set.length ≤
      MAX_SENT_MESSAGE_IDS :=
  ⟨by decide, tracker_registry_inv ["a", "b"] (by decide)⟩
